import Mathlib

/-!
Verification of the layered session-state and event-log store
(`extlib/custom_mongodb_session_service.py`, class `MongoDBSessionService`,
together with `extlib/custom_sessions.py`).

Python dictionaries are modelled as association lists in insertion order
with pairwise distinct keys; Python strings as lists of characters (for
state keys and identifiers) or as lists of ASCII codes (for base64 text);
timestamps as integers (only their ordering matters to the code under
study); MongoDB collections as in-memory lists of documents.  Each
operation of the service is a pure function from a `Store` to a result
together with the store after the call; an aborted transaction returns
the store unchanged.
-/

set_option maxHeartbeats 1000000

namespace TaxAgent

/-- A Python `str` used as a dictionary key or identifier. -/
abbrev Str := List Char

/-- A Python `dict` with string keys: an association list in insertion
order, with pairwise distinct keys when it models an actual dict. -/
abbrev AList (K V : Type) := List (K × V)

/-- A flat state dictionary. -/
abbrev StateMap (V : Type) := AList Str V

/-- `google.adk.sessions.state.State.APP_PREFIX`, the string `"app:"`. -/
def APP_PFX : Str := ['a', 'p', 'p', ':']

/-- `google.adk.sessions.state.State.USER_PREFIX`, the string `"user:"`. -/
def USER_PFX : Str := ['u', 's', 'e', 'r', ':']

/-- `google.adk.sessions.state.State.TEMP_PREFIX`, the string `"temp:"`. -/
def TEMP_PFX : Str := ['t', 'e', 'm', 'p', ':']

/-- Python `str.removeprefix`: drop `p` from the front of `k` when `k`
starts with `p`, otherwise return `k` unchanged. -/
def removePfx (p k : Str) : Str := if p.isPrefixOf k then k.drop p.length else k

/-- Python dict lookup `m.get(k)`: the binding of the first (unique)
occurrence of the key. -/
def dlookup {K V : Type} [DecidableEq K] : AList K V → K → Option V
  | [], _ => none
  | (k, v) :: rest, k0 => if k = k0 then some v else dlookup rest k0

/-- Python dict assignment `m[k] = v`: replace the value in place if the
key is present, otherwise append the new binding at the end. -/
def dset {K V : Type} [DecidableEq K] : AList K V → K → V → AList K V
  | [], k, v => [(k, v)]
  | (k0, v0) :: rest, k, v => if k0 = k then (k, v) :: rest else (k0, v0) :: dset rest k v

/-- Python `m.update(delta)`: assign every binding of `delta` into `m`
in order. -/
def dictUpdate {K V : Type} [DecidableEq K] (m delta : AList K V) : AList K V :=
  delta.foldl (fun acc kv => dset acc kv.1 kv.2) m

/-- `MongoDBSessionService._extract_state_delta`: partition a combined
state dict into app / user / session tiers by key prefix, stripping the
tier prefix from app and user keys and discarding `temp:`-prefixed keys.
A `None` combined state is the empty list. -/
def extract_state_delta {V : Type} : StateMap V → StateMap V × StateMap V × StateMap V
  | [] => ([], [], [])
  | (k, v) :: rest =>
    let r := extract_state_delta rest
    if APP_PFX.isPrefixOf k then ((removePfx APP_PFX k, v) :: r.1, r.2.1, r.2.2)
    else if USER_PFX.isPrefixOf k then (r.1, (removePfx USER_PFX k, v) :: r.2.1, r.2.2)
    else if TEMP_PFX.isPrefixOf k then r
    else (r.1, r.2.1, (k, v) :: r.2.2)

/-- `MongoDBSessionService._merge_state`: deep-copy the session state and
assign every app binding under an `app:`-prefixed key and every user
binding under a `user:`-prefixed key. -/
def merge_state {V : Type} (app_state user_state session_state : StateMap V) : StateMap V :=
  let m1 := app_state.foldl (fun m kv => dset m (APP_PFX ++ kv.1) kv.2) session_state
  user_state.foldl (fun m kv => dset m (USER_PFX ++ kv.1) kv.2) m1

/-! ### base64 (Python `base64.b64encode` / `base64.b64decode`)

Encoded text is modelled as the list of ASCII codes of the base64
string; `61` is the code of the padding character. -/

/-- ASCII code of the base64 alphabet character at index `n < 64`
(`A`-`Z`, `a`-`z`, `0`-`9`, `+`, `/`). -/
def b64CharOf (n : Nat) : Nat :=
  if n < 26 then 65 + n
  else if n < 52 then 97 + (n - 26)
  else if n < 62 then 48 + (n - 52)
  else if n = 62 then 43
  else 47

/-- Index of ASCII code `c` in the base64 alphabet, or `none`. -/
def b64IndexOf (c : Nat) : Option Nat :=
  if 65 ≤ c ∧ c ≤ 90 then some (c - 65)
  else if 97 ≤ c ∧ c ≤ 122 then some (26 + (c - 97))
  else if 48 ≤ c ∧ c ≤ 57 then some (52 + (c - 48))
  else if c = 43 then some 62
  else if c = 47 then some 63
  else none

/-- `base64.b64encode(bs).decode("utf-8")` over the byte list `bs`:
three bytes become four alphabet characters; a trailing group of two or
one bytes is padded with one or two `=` characters. -/
def b64encode : List Nat → List Nat
  | b1 :: b2 :: b3 :: rest =>
      b64CharOf (b1 / 4) :: b64CharOf (b1 % 4 * 16 + b2 / 16) ::
        b64CharOf (b2 % 16 * 4 + b3 / 64) :: b64CharOf (b3 % 64) :: b64encode rest
  | [b1, b2] => [b64CharOf (b1 / 4), b64CharOf (b1 % 4 * 16 + b2 / 16), b64CharOf (b2 % 16 * 4), 61]
  | [b1] => [b64CharOf (b1 / 4), b64CharOf (b1 % 4 * 16), 61, 61]
  | [] => []

/-- `base64.b64decode` over the ASCII codes of the stored string;
`none` models `binascii.Error` on input that is not a well-formed
base64 encoding. -/
def b64decode : List Nat → Option (List Nat)
  | [] => some []
  | c1 :: c2 :: c3 :: c4 :: rest =>
      match b64IndexOf c1, b64IndexOf c2 with
      | some n1, some n2 =>
          if c3 = 61 then
            if c4 = 61 ∧ rest = [] then some [n1 * 4 + n2 / 16] else none
          else
            match b64IndexOf c3 with
            | some n3 =>
                if c4 = 61 then
                  if rest = [] then some [n1 * 4 + n2 / 16, n2 % 16 * 16 + n3 / 4] else none
                else
                  match b64IndexOf c4, b64decode rest with
                  | some n4, some tail =>
                      some ((n1 * 4 + n2 / 16) :: (n2 % 16 * 16 + n3 / 4) :: (n3 % 4 * 64 + n4) :: tail)
                  | _, _ => none
            | none => none
      | _, _ => none
  | _ => none

/-! ### Event content and the content codec
(`MongoDBSessionService._encode_content` / `_decode_content`)

An event's content is the dict produced by `content.model_dump()`: an
optional role, and an optional list of parts; a part may carry a text
field and an `inline_data` dict with a mime type and a `data` value.
`grounding_metadata` and other payloads opaque to the codec are not
modelled.  The `data` value is a Python `bytes` (a byte list), a Python
`str` (represented by its UTF-8 bytes, which is what `.encode("utf-8")`
returns on it), the 1-tuple of a base64 string that `_encode_content`
produces, or the 1-element Python *list* that pymongo hands back for a
stored tuple: BSON has no tuple type, so a tuple is encoded as a BSON
array, and arrays are decoded as lists on every read. -/

/-- The value found under `part["inline_data"]["data"]`. -/
inductive BinData where
  | bytes (bs : List Nat)
  | pystr (utf8 : List Nat)
  | tup1 (s : List Nat)
  | lst1 (s : List Nat)
  deriving DecidableEq

/-- The dict under `part["inline_data"]`. -/
structure InlineData where
  mime_type : Option Str
  data : Option BinData
  deriving DecidableEq

/-- One element of `content["parts"]`. -/
structure ContentPart where
  text : Option Str
  inline_data : Option InlineData
  deriving DecidableEq

/-- The content dict of an event. -/
structure Content where
  role : Option Str
  parts : Option (List ContentPart)
  deriving DecidableEq

/-- The mutation `_encode_content` applies to a present `data` value:
a `str` is first re-encoded to its UTF-8 bytes, then the bytes are
base64-encoded and wrapped in a 1-tuple.  (On a value that is already a
tuple or a list, Python's `b64encode` would raise `TypeError`; those
cases are unreachable from `append_event`, which encodes freshly dumped
content, and are modelled as the identity.) -/
def encodeBinData : BinData → BinData
  | .bytes bs => .tup1 (b64encode bs)
  | .pystr bs => .tup1 (b64encode bs)
  | .tup1 s => .tup1 s
  | .lst1 s => .lst1 s

/-- The mutation `_decode_content` applies to a present `data` value:
only values satisfying `isinstance(..., tuple)` are touched — in
particular a *list* is left exactly as it is — and a failed base64
decode is logged and the value left in place. -/
def decodeBinData : BinData → BinData
  | .tup1 s =>
      match b64decode s with
      | some bs => .bytes bs
      | none => .tup1 s
  | .bytes bs => .bytes bs
  | .pystr bs => .pystr bs
  | .lst1 s => .lst1 s

/-- Per-part action of `_encode_content`: mutate `data` when both
`inline_data` and `data` are present. -/
def encodePart (p : ContentPart) : ContentPart :=
  { p with inline_data := p.inline_data.map fun d => { d with data := d.data.map encodeBinData } }

/-- `MongoDBSessionService._encode_content` on a (deep copy of a)
content dict: rewrite every part's inline binary data; everything else
passes through unchanged.  (The `if not content` early return only
concerns the falsy dicts `None`/`{}`, on which the traversal below is
the identity as well.) -/
def encode_content (c : Content) : Content :=
  { c with parts := c.parts.map fun ps => ps.map encodePart }

/-- Per-part action of `_decode_content`. -/
def decodePart (p : ContentPart) : ContentPart :=
  { p with inline_data := p.inline_data.map fun d => { d with data := d.data.map decodeBinData } }

/-- `MongoDBSessionService._decode_content`. -/
def decode_content (c : Content) : Content :=
  { c with parts := c.parts.map fun ps => ps.map decodePart }

/-- pymongo's BSON round trip of a stored `data` value: BSON has no
tuple type, so the 1-tuple `_encode_content` produces is written as a
BSON array and read back as a Python list; bytes and strings survive
unchanged. -/
def bsonBinData : BinData → BinData
  | .tup1 s => .lst1 s
  | .bytes bs => .bytes bs
  | .pystr s => .pystr s
  | .lst1 s => .lst1 s

/-- The BSON round trip applied inside a part. -/
def bsonPart (p : ContentPart) : ContentPart :=
  { p with inline_data := p.inline_data.map fun d => { d with data := d.data.map bsonBinData } }

/-- The BSON round trip of a stored content dict: what a later read
(`find`) returns for the dict `insert_one` was given.  Only the tuple
inside `inline_data.data` is affected; every other modelled value maps
to itself under BSON. -/
def bsonContent (c : Content) : Content :=
  { c with parts := c.parts.map fun ps => ps.map bsonPart }

/-- `data` values that are genuine byte strings (`bytes`, every element
an actual byte value). -/
def BinData.goodBytes : BinData → Bool
  | .bytes bs => bs.all (· < 256)
  | .pystr _ => false
  | .tup1 _ => false
  | .lst1 _ => false

/-- A part whose inline data payload, when present, is a genuine byte
string. -/
def ContentPart.binaryOnly (p : ContentPart) : Bool :=
  match p.inline_data with
  | some d =>
      match d.data with
      | some b => b.goodBytes
      | none => true
  | none => true

/-- A content dict all of whose inline data payloads are genuine byte
strings. -/
def Content.binaryOnly (c : Content) : Bool :=
  match c.parts with
  | some ps => ps.all ContentPart.binaryOnly
  | none => true

/-! ### The MongoDB store and the documents of its four collections -/

/-- A document of the `app_states` or `user_states` collection (minus
its `_id`, which is the association-list key). -/
structure StateDoc (V : Type) where
  state : StateMap V
  update_time : Int
  deriving DecidableEq

/-- A document of the `sessions` collection; `sid` is the `_id`. -/
structure SessionDoc (V : Type) where
  sid : Str
  app_name : Str
  user_id : Str
  state : StateMap V
  create_time : Int
  update_time : Int
  deriving DecidableEq

/-- A document of the `events` collection; `eid` is the `_id`.  The
`actions` payload is modelled by its `state_delta` component (`none`
standing for `actions = None`); `grounding_metadata` and
`long_running_tool_ids` are opaque to every claim and not modelled. -/
structure EventDoc (V : Type) where
  eid : Str
  invocation_id : Str
  author : Str
  branch : Option Str
  actions_state_delta : Option (StateMap V)
  session_id : Str
  app_name : Str
  user_id : Str
  timestamp : Int
  partialFlag : Option Bool
  turn_complete : Option Bool
  error_code : Option Str
  error_message : Option Str
  interrupted : Option Bool
  content : Option Content
  deriving DecidableEq

/-- The four collections of the database.  Mongo's `_id` uniqueness is
a property of stores reachable through the service, enforced by the
duplicate-key checks in the operations below. -/
structure Store (V : Type) where
  app_states : AList Str (StateDoc V)
  user_states : AList (Str × Str) (StateDoc V)
  sessions : List (SessionDoc V)
  events : List (EventDoc V)
  deriving DecidableEq

/-- The in-memory `google.adk.events.event.Event`, restricted to the
fields the service reads and writes. -/
structure EventObj (V : Type) where
  eid : Str
  invocation_id : Str
  author : Str
  branch : Option Str
  actions_state_delta : Option (StateMap V)
  timestamp : Int
  partialFlag : Option Bool
  turn_complete : Option Bool
  error_code : Option Str
  error_message : Option Str
  interrupted : Option Bool
  content : Option Content
  deriving DecidableEq

/-- The in-memory `google.adk.sessions.session.Session` handle. -/
structure SessionObj (V : Type) where
  app_name : Str
  user_id : Str
  id : Str
  state : StateMap V
  last_update_time : Int
  events : List (EventObj V)
  deriving DecidableEq

/-- Python truthiness of an `Optional[bool]`. -/
def truthy : Option Bool → Bool
  | some true => true
  | some false => false
  | none => false

/-- `MongoDBSessionService._session_doc_to_obj`: no events argument
leaves the `Session` with its default empty event list. -/
def session_doc_to_obj {V : Type} (doc : SessionDoc V) (merged_state : StateMap V)
    (events : Option (List (EventObj V))) : SessionObj V :=
  { app_name := doc.app_name
    user_id := doc.user_id
    id := doc.sid
    state := merged_state
    last_update_time := doc.update_time
    events := events.getD [] }

/-- `MongoDBSessionService._event_doc_to_obj`: content is decoded when
present. -/
def event_doc_to_obj {V : Type} (doc : EventDoc V) : EventObj V :=
  { eid := doc.eid
    invocation_id := doc.invocation_id
    author := doc.author
    branch := doc.branch
    actions_state_delta := doc.actions_state_delta
    timestamp := doc.timestamp
    partialFlag := doc.partialFlag
    turn_complete := doc.turn_complete
    error_code := doc.error_code
    error_message := doc.error_message
    interrupted := doc.interrupted
    content := doc.content.map decode_content }

/-! ### `create_session` -/

/-- The message of the `ValueError` raised on a duplicate session id:
`f"Session with id '{session_id}' already exists for user {user_id} in
app {app_name}."`. -/
def conflictMsg (app_name user_id session_id : Str) : Str :=
  "Session with id '".toList ++ session_id ++ "' already exists for user ".toList ++
    user_id ++ " in app ".toList ++ app_name ++ ".".toList

/-- Whether the `sessions` collection already holds a document whose
`_id` equals `session_id` (for any owning app/user), which is what makes
`insert_one` raise `DuplicateKeyError`. -/
def hasSessionId {V : Type} (st : Store V) (session_id : Str) : Bool :=
  st.sessions.any (fun d => d.sid == session_id)

/-- `MongoDBSessionService.create_session`.  The caller passes the
session id (the generated `uuid4` when none was supplied) and the
current time.  The two state upserts and the session insert happen in
one transaction; a `DuplicateKeyError` from the insert aborts the
transaction — the returned store is the caller's store unchanged — and
surfaces as a `ValueError` naming the colliding id. -/
def create_session {V : Type} (st : Store V) (app_name user_id : Str)
    (state : StateMap V) (session_id : Str) (now : Int) :
    Except Str (SessionObj V) × Store V :=
  let esd := extract_state_delta state
  let app_state := ((dlookup st.app_states app_name).map (·.state)).getD []
  let user_state := ((dlookup st.user_states (app_name, user_id)).map (·.state)).getD []
  let app_state2 := dictUpdate app_state esd.1
  let user_state2 := dictUpdate user_state esd.2.1
  let session_state := esd.2.2
  if hasSessionId st session_id then
    (.error (conflictMsg app_name user_id session_id), st)
  else
    let st1 : Store V :=
      { st with
        app_states := dset st.app_states app_name ⟨app_state2, now⟩
        user_states := dset st.user_states (app_name, user_id) ⟨user_state2, now⟩ }
    let sdoc : SessionDoc V :=
      { sid := session_id, app_name := app_name, user_id := user_id,
        state := session_state, create_time := now, update_time := now }
    let st2 := { st1 with sessions := st1.sessions ++ [sdoc] }
    let merged := merge_state app_state2 user_state2 session_state
    (.ok (session_doc_to_obj sdoc merged none), st2)

/-! ### `get_session` -/

/-- `google.adk.sessions.base_session_service.GetSessionConfig`. -/
structure GetSessionConfig where
  after_timestamp : Option Int
  num_recent_events : Option Int
  deriving DecidableEq

/-- The Mongo event query built by `get_session`: the session keys, and
— when the config carries an `after_timestamp` — the code's
`{"timestamp": {"$lt": after_dt}}` clause.  (Both the stored timestamp
and the bound go through the same `datetime.fromtimestamp`, so the
comparison is the comparison of the raw timestamps.) -/
def eventMatches {V : Type} (app_name user_id session_id : Str)
    (config : Option GetSessionConfig) (e : EventDoc V) : Bool :=
  e.session_id == session_id && e.app_name == app_name && e.user_id == user_id &&
    (match config with
     | some c =>
         match c.after_timestamp with
         | some t => decide (e.timestamp < t)
         | none => true
     | none => true)

/-- The limit `get_session` passes to the cursor: `num_recent_events`
when it is given and positive, nothing otherwise. -/
def eventLimit (config : Option GetSessionConfig) : Option Int :=
  match config with
  | some c =>
      match c.num_recent_events with
      | some n => if 0 < n then some n else none
      | none => none
  | none => none

/-- Comparison by ascending stored timestamp. -/
def tsLE {V : Type} (a b : EventDoc V) : Prop := a.timestamp ≤ b.timestamp

/-- Comparison by descending stored timestamp. -/
def tsGE {V : Type} (a b : EventDoc V) : Prop := b.timestamp ≤ a.timestamp

instance {V : Type} : DecidableRel (@tsLE V) := fun a b =>
  inferInstanceAs (Decidable (a.timestamp ≤ b.timestamp))

instance {V : Type} : DecidableRel (@tsGE V) := fun a b =>
  inferInstanceAs (Decidable (b.timestamp ≤ a.timestamp))

instance {V : Type} : IsTotal (EventDoc V) tsLE := ⟨fun a b => le_total a.timestamp b.timestamp⟩

instance {V : Type} : IsTotal (EventDoc V) tsGE := ⟨fun a b => le_total b.timestamp a.timestamp⟩

instance {V : Type} : IsTrans (EventDoc V) tsLE := ⟨fun _ _ _ h1 h2 => le_trans h1 h2⟩

instance {V : Type} : IsTrans (EventDoc V) tsGE := ⟨fun _ _ _ h1 h2 => le_trans h2 h1⟩

/-- The cursor's `sort([("timestamp", ASCENDING)])`. -/
def sortAscTs {V : Type} (l : List (EventDoc V)) : List (EventDoc V) :=
  List.insertionSort tsLE l

/-- The cursor's `sort([("timestamp", DESCENDING)])`. -/
def sortDescTs {V : Type} (l : List (EventDoc V)) : List (EventDoc V) :=
  List.insertionSort tsGE l

/-- The event documents `get_session` materialises: the matching events
sorted ascending, except that with a positive `num_recent_events` the
newest are fetched first (descending), capped, and the list reversed
back to chronological order. -/
def getSessionEventDocs {V : Type} (st : Store V) (app_name user_id session_id : Str)
    (config : Option GetSessionConfig) : List (EventDoc V) :=
  let matching := st.events.filter (eventMatches app_name user_id session_id config)
  match eventLimit config with
  | some n => ((sortDescTs matching).take n.toNat).reverse
  | none => sortAscTs matching

/-- `MongoDBSessionService.get_session`. -/
def get_session {V : Type} (st : Store V) (app_name user_id session_id : Str)
    (config : Option GetSessionConfig) : Option (SessionObj V) :=
  match st.sessions.find?
      (fun d => d.sid == session_id && d.app_name == app_name && d.user_id == user_id) with
  | none => none
  | some sdoc =>
    let app_state := ((dlookup st.app_states app_name).map (·.state)).getD []
    let user_state := ((dlookup st.user_states (app_name, user_id)).map (·.state)).getD []
    let merged := merge_state app_state user_state sdoc.state
    let event_docs := getSessionEventDocs st app_name user_id session_id config
    some (session_doc_to_obj sdoc merged (some (event_docs.map event_doc_to_obj)))

/-- `MongoDBSessionService.list_events`: every event of the session in
ascending timestamp order. -/
def list_events {V : Type} (st : Store V) (app_name user_id session_id : Str) :
    List (EventObj V) :=
  (sortAscTs (st.events.filter
      (fun e => e.app_name == app_name && e.user_id == user_id && e.session_id == session_id))).map
    event_doc_to_obj

/-! ### `append_event` -/

/-- The errors `append_event` raises inside the transaction: the
missing-session and stale-token `ValueError`s, and the
`DuplicateKeyError` of the event insert. -/
inductive AppendErr where
  | notFound (sid : Str)
  | stale (token stored : Int)
  | dupEvent (eid : Str)
  deriving DecidableEq

/-- The three tier deltas `append_event` extracts: only when the event
has an actions payload with a truthy (non-empty) `state_delta`. -/
def eventDeltas {V : Type} (event : EventObj V) : StateMap V × StateMap V × StateMap V :=
  match event.actions_state_delta with
  | some delta => if delta.isEmpty then ([], [], []) else extract_state_delta delta
  | none => ([], [], [])

/-- Replace the first document matching `p` (Mongo `update_one`). -/
def updateFirst {α : Type} (p : α → Bool) (f : α → α) : List α → List α
  | [] => []
  | x :: xs => if p x then f x :: xs else x :: updateFirst p f xs

/-- The event document `append_event` inserts (its `event_doc` local),
as later reads observe it: the event's fields keyed by the handle's
session identity, content passed through `_encode_content` and then
through pymongo's BSON encoding — which turns the encoder's 1-tuple
into an array that every subsequent `find` returns as a list. -/
def appendedDoc {V : Type} (session : SessionObj V) (event : EventObj V) : EventDoc V :=
  { eid := event.eid
    invocation_id := event.invocation_id
    author := event.author
    branch := event.branch
    actions_state_delta := event.actions_state_delta
    session_id := session.id
    app_name := session.app_name
    user_id := session.user_id
    timestamp := event.timestamp
    partialFlag := event.partialFlag
    turn_complete := event.turn_complete
    error_code := event.error_code
    error_message := event.error_message
    interrupted := event.interrupted
    content := (event.content.map encode_content).map bsonContent }

/-- `MongoDBSessionService.append_event` (whose no-content and partial
early returns coincide with `MyDatabaseSessionService.append_event` in
`custom_sessions.py`).  Returns the result, the caller's session handle
after the call, and the store after the call; any raise aborts the
transaction, leaving the store as it was.  On commit the handle's
`last_update_time` is set to the transaction time and the base class
appends the event to the handle's event list. -/
def append_event {V : Type} (st : Store V) (session : SessionObj V) (event : EventObj V)
    (now : Int) : Except AppendErr (EventObj V) × SessionObj V × Store V :=
  if event.content.isNone then (.ok event, session, st)
  else if truthy event.partialFlag then (.ok event, session, st)
  else
    match st.sessions.find?
        (fun d => d.sid == session.id && d.app_name == session.app_name &&
          d.user_id == session.user_id) with
    | none => (.error (.notFound session.id), session, st)
    | some sdoc =>
      if sdoc.update_time > session.last_update_time then
        (.error (.stale session.last_update_time sdoc.update_time), session, st)
      else
        let app_state := ((dlookup st.app_states session.app_name).map (·.state)).getD []
        let user_state :=
          ((dlookup st.user_states (session.app_name, session.user_id)).map (·.state)).getD []
        let session_state := sdoc.state
        let deltas := eventDeltas event
        let app_state2 := dictUpdate app_state deltas.1
        let user_state2 := dictUpdate user_state deltas.2.1
        let session_state2 := dictUpdate session_state deltas.2.2
        let app_states2 := dset st.app_states session.app_name ⟨app_state2, now⟩
        let st1 := if deltas.1.isEmpty then st else { st with app_states := app_states2 }
        let user_states2 :=
          dset st1.user_states (session.app_name, session.user_id) ⟨user_state2, now⟩
        let st2 := if deltas.2.1.isEmpty then st1 else { st1 with user_states := user_states2 }
        let sessions2 := updateFirst (fun d => d.sid == session.id)
          (fun d => { d with state := session_state2, update_time := now }) st2.sessions
        let st3 :=
          if deltas.2.2.isEmpty && deltas.1.isEmpty && deltas.2.1.isEmpty then st2
          else { st2 with sessions := sessions2 }
        if st.events.any (fun e => e.eid == event.eid) then
          (.error (.dupEvent event.eid), session, st)
        else
          let st4 := { st3 with events := st3.events ++ [appendedDoc session event] }
          let session2 :=
            { session with last_update_time := now, events := session.events ++ [event] }
          (.ok event, session2, st4)

/-- The optimistic-concurrency comparison of `append_event` against a
given store: the stored `update_time` of the handle's session record is
strictly newer than the handle's `last_update_time` token. -/
def appendStaleCheck {V : Type} (st : Store V) (session : SessionObj V) : Bool :=
  match st.sessions.find?
      (fun d => d.sid == session.id && d.app_name == session.app_name &&
        d.user_id == session.user_id) with
  | some d => decide (d.update_time > session.last_update_time)
  | none => false

/-! ### Concrete fixtures, used to evaluate the model at explicit inputs -/

/-- An event document of session `s` of app `a` / user `u`, with the
given id and timestamp and no further payload. -/
def exDoc (eid : Str) (ts : Int) : EventDoc Nat :=
  { eid := eid, invocation_id := ['i'], author := ['a'], branch := none,
    actions_state_delta := none, session_id := ['s'], app_name := ['a'], user_id := ['u'],
    timestamp := ts, partialFlag := none, turn_complete := none, error_code := none,
    error_message := none, interrupted := none, content := none }

/-- The session document `s` of app `a` / user `u`. -/
def exSessionDoc : SessionDoc Nat :=
  { sid := ['s'], app_name := ['a'], user_id := ['u'], state := [],
    create_time := 0, update_time := 0 }

/-- A caller's handle on `exSessionDoc` with token `0`. -/
def exSession : SessionObj Nat :=
  { app_name := ['a'], user_id := ['u'], id := ['s'], state := [],
    last_update_time := 0, events := [] }

/-- A store holding only session `s`, with events at timestamps 1 and 3. -/
def exStore13 : Store Nat :=
  { app_states := [], user_states := [],
    sessions := [exSessionDoc],
    events := [exDoc ['e', '1'] 1, exDoc ['e', '2'] 3] }

/-- A store holding only session `s`, with three events inserted out of
timestamp order (timestamps 2, 3, 1). -/
def exStore231 : Store Nat :=
  { app_states := [], user_states := [],
    sessions := [exSessionDoc],
    events := [exDoc ['e', '1'] 2, exDoc ['e', '2'] 3, exDoc ['e', '3'] 1] }

/-- `exSessionDoc` with its stored update time moved forward to 7. -/
def exSessionDoc7 : SessionDoc Nat := { exSessionDoc with update_time := 7 }

/-- A store holding only session `s` of app `a` / user `u`, no events,
record update time 7. -/
def exStore7 : Store Nat :=
  { app_states := [], user_states := [],
    sessions := [exSessionDoc7],
    events := [] }

/-- A store holding only session `s`, no events. -/
def exStore0 : Store Nat :=
  { app_states := [], user_states := [], sessions := [exSessionDoc], events := [] }

/-- An empty store. -/
def exStoreEmpty : Store Nat :=
  { app_states := [], user_states := [], sessions := [], events := [] }

/-- A content dict with one part carrying inline binary data. -/
def exContent : Content :=
  { role := some ['u'],
    parts := some [{ text := none,
                     inline_data := some { mime_type := some ['p', 'n', 'g'],
                                           data := some (.bytes [0, 255, 10, 77]) } }] }

/-- An event with content `exContent`, not partial, no state delta. -/
def exEvent : EventObj Nat :=
  { eid := ['x'], invocation_id := ['i'], author := ['a'], branch := none,
    actions_state_delta := none, timestamp := 2, partialFlag := some false,
    turn_complete := none, error_code := none, error_message := none,
    interrupted := none, content := some exContent }

/-- An event with no content at all. -/
def exEventNoContent : EventObj Nat :=
  { exEvent with eid := ['y'], content := none }

/-- A combined flat state map touching all four kinds of keys. -/
def exState : StateMap Nat :=
  [(APP_PFX ++ ['k'], 1), (USER_PFX ++ ['k'], 2), (TEMP_PFX ++ ['k'], 3), (['k'], 4)]

/-! ### Proof development -/

theorem b64IndexOf_b64CharOf : ∀ n < 64, b64IndexOf (b64CharOf n) = some n := by decide

theorem b64CharOf_ne_61 : ∀ n < 64, b64CharOf n ≠ 61 := by decide

/-- Decoding inverts encoding on any list of genuine bytes. -/
theorem b64decode_b64encode : ∀ bs : List Nat, (∀ b ∈ bs, b < 256) →
    b64decode (b64encode bs) = some bs
  | [], _ => rfl
  | [b1], h => by
    have hb1 : b1 < 256 := h b1 (by simp)
    have h1 := b64IndexOf_b64CharOf (b1 / 4) (by omega)
    have h2 := b64IndexOf_b64CharOf (b1 % 4 * 16) (by omega)
    simp [b64encode, b64decode, h1, h2]
    omega
  | [b1, b2], h => by
    have hb1 : b1 < 256 := h b1 (by simp)
    have hb2 : b2 < 256 := h b2 (by simp)
    have h1 := b64IndexOf_b64CharOf (b1 / 4) (by omega)
    have h2 := b64IndexOf_b64CharOf (b1 % 4 * 16 + b2 / 16) (by omega)
    have h3 := b64IndexOf_b64CharOf (b2 % 16 * 4) (by omega)
    have hne3 := b64CharOf_ne_61 (b2 % 16 * 4) (by omega)
    simp [b64encode, b64decode, h1, h2, h3, hne3]
    omega
  | b1 :: b2 :: b3 :: rest, h => by
    have hb1 : b1 < 256 := h b1 (by simp)
    have hb2 : b2 < 256 := h b2 (by simp)
    have hb3 : b3 < 256 := h b3 (by simp)
    have ih := b64decode_b64encode rest (fun b hb => h b (by simp [hb]))
    have h1 := b64IndexOf_b64CharOf (b1 / 4) (by omega)
    have h2 := b64IndexOf_b64CharOf (b1 % 4 * 16 + b2 / 16) (by omega)
    have h3 := b64IndexOf_b64CharOf (b2 % 16 * 4 + b3 / 64) (by omega)
    have h4 := b64IndexOf_b64CharOf (b3 % 64) (by omega)
    have hne3 := b64CharOf_ne_61 (b2 % 16 * 4 + b3 / 64) (by omega)
    have hne4 := b64CharOf_ne_61 (b3 % 64) (by omega)
    show b64decode (b64CharOf (b1 / 4) :: b64CharOf (b1 % 4 * 16 + b2 / 16) ::
      b64CharOf (b2 % 16 * 4 + b3 / 64) :: b64CharOf (b3 % 64) :: b64encode rest) = _
    simp [b64decode, h1, h2, h3, h4, hne3, hne4, ih]
    omega

theorem decodeBinData_encodeBinData (b : BinData) (hb : b.goodBytes = true) :
    decodeBinData (encodeBinData b) = b := by
  cases b with
  | bytes bs =>
    have hlt : ∀ x ∈ bs, x < 256 := by
      intro x hx
      simpa using (List.all_eq_true.mp hb) x hx
    simp [encodeBinData, decodeBinData, b64decode_b64encode bs hlt]
  | pystr bs => simp [BinData.goodBytes] at hb
  | tup1 s => simp [BinData.goodBytes] at hb
  | lst1 s => simp [BinData.goodBytes] at hb

theorem decodePart_encodePart (p : ContentPart) (hp : p.binaryOnly = true) :
    decodePart (encodePart p) = p := by
  obtain ⟨t, i⟩ := p
  cases i with
  | none => rfl
  | some d =>
    obtain ⟨m, bo⟩ := d
    cases bo with
    | none => rfl
    | some b =>
      have hb : b.goodBytes = true := by
        simpa [ContentPart.binaryOnly] using hp
      simp [encodePart, decodePart, decodeBinData_encodeBinData b hb]


theorem hasSessionId_iff {V : Type} (st : Store V) (session_id : Str) :
    hasSessionId st session_id = true ↔ ∃ d ∈ st.sessions, d.sid = session_id := by
  simp [hasSessionId, List.any_eq_true, beq_iff_eq]

/-- **C8**: for every session and every event that either has no content
or is flagged partial, `append_event` returns the event without error and
persists nothing: the store — event log and all three state tiers,
including the session record's update time — and the caller's handle are
returned exactly as they were. -/
theorem C8_append_event_noop {V : Type} (st : Store V) (session : SessionObj V)
    (event : EventObj V) (now : Int)
    (h : event.content = none ∨ truthy event.partialFlag = true) :
    append_event st session event now = (.ok event, session, st) := by
  rcases h with h | h
  · simp [append_event, h]
  · cases hc : event.content with
    | none => simp [append_event, hc]
    | some c => simp [append_event, hc, h]

/-- Witness for **C8** at a concrete input. -/
theorem C8_witness :
    (exEventNoContent.content = none ∨ truthy exEventNoContent.partialFlag = true) ∧
    append_event exStore0 exSession exEventNoContent 9 = (.ok exEventNoContent, exSession, exStore0) :=
  ⟨Or.inl rfl, C8_append_event_noop exStore0 exSession exEventNoContent 9 (Or.inl rfl)⟩

/-- **C10**: a config whose `num_recent_events` is zero or negative
applies no cap at all — `get_session` behaves exactly as with no cap
configured, and the returned events are all query-matching events in
ascending timestamp order. -/
theorem C10_nonpositive_cap {V : Type} (st : Store V) (app_name user_id session_id : Str)
    (c : GetSessionConfig) (n : Int) (hc : c.num_recent_events = some n) (hn : n ≤ 0) :
    get_session st app_name user_id session_id (some c) =
      get_session st app_name user_id session_id (some { c with num_recent_events := none }) ∧
    getSessionEventDocs st app_name user_id session_id (some c) =
      sortAscTs (st.events.filter (eventMatches app_name user_id session_id (some c))) := by
  obtain ⟨a0, nr⟩ := c
  simp only [GetSessionConfig.mk.injEq] at hc ⊢
  subst hc
  have hlim : eventLimit (some ⟨a0, some n⟩) = none := by
    simp [eventLimit, if_neg (not_lt.mpr hn)]
  have hmatch : eventMatches (V := V) app_name user_id session_id (some ⟨a0, some n⟩) =
      eventMatches app_name user_id session_id (some ⟨a0, none⟩) :=
    funext fun e => rfl
  have hdocs : getSessionEventDocs st app_name user_id session_id (some ⟨a0, some n⟩) =
      sortAscTs (st.events.filter (eventMatches app_name user_id session_id
        (some ⟨a0, some n⟩))) := by
    unfold getSessionEventDocs
    rw [hlim]
  refine ⟨?_, hdocs⟩
  have hdocs2 : getSessionEventDocs st app_name user_id session_id (some ⟨a0, none⟩) =
      sortAscTs (st.events.filter (eventMatches app_name user_id session_id
        (some ⟨a0, none⟩))) := by
    unfold getSessionEventDocs
    rw [show eventLimit (some ⟨a0, none⟩) = none from rfl]
  simp only [get_session, hdocs, hdocs2, hmatch]

/-- Witness for **C10** at a concrete input. -/
theorem C10_witness :
    ((some { after_timestamp := none, num_recent_events := some (-1) } :
        Option GetSessionConfig).get rfl).num_recent_events = some (-1) ∧ (-1 : Int) ≤ 0 ∧
    (get_session exStore231 ['a'] ['u'] ['s']
        (some { after_timestamp := none, num_recent_events := some (-1) }) =
      get_session exStore231 ['a'] ['u'] ['s']
        (some { after_timestamp := none, num_recent_events := none }) ∧
    getSessionEventDocs exStore231 ['a'] ['u'] ['s']
        (some { after_timestamp := none, num_recent_events := some (-1) }) =
      sortAscTs (exStore231.events.filter (eventMatches ['a'] ['u'] ['s']
        (some { after_timestamp := none, num_recent_events := some (-1) })))) :=
  ⟨rfl, by decide,
    C10_nonpositive_cap exStore231 ['a'] ['u'] ['s']
      { after_timestamp := none, num_recent_events := some (-1) } (-1) rfl (by decide)⟩

/-- **C2** counterexample: `exStore0` holds session `s` owned by the
pair (`a`, `u`); creating a session with the same explicit id `s` for
the *different* pair (`b`, `v`) fails with the Conflict error — the
claim asserts this call succeeds. -/
theorem C2_counterexample :
    (create_session exStore0 ['b'] ['v'] [] ['s'] 1).1 =
      .error (conflictMsg ['b'] ['v'] ['s']) := by rfl

/-- **C2** (amended): `create_session` fails with a Conflict error iff a
session with the given id already exists in the store for *any* owning
(application, user) pair — the session id is the collection's global
primary key, so a cross-pair collision also fails. -/
theorem C2_create_conflict_iff {V : Type} (st : Store V) (app_name user_id : Str)
    (state : StateMap V) (session_id : Str) (now : Int) :
    (∃ msg, (create_session st app_name user_id state session_id now).1 = .error msg) ↔
      ∃ d ∈ st.sessions, d.sid = session_id := by
  rw [← hasSessionId_iff]
  cases h : hasSessionId st session_id <;> simp [create_session, h]

/-- **C7**: a create with a colliding explicit session id fails with a
Conflict error whose message contains the colliding id, and the store —
all record sets, including the app-state and user-state upserts done
inside the transaction — is returned exactly as it was before the call. -/
theorem C7_create_conflict_aborts {V : Type} (st : Store V) (app_name user_id : Str)
    (state : StateMap V) (session_id : Str) (now : Int)
    (h : hasSessionId st session_id = true) :
    (create_session st app_name user_id state session_id now).2 = st ∧
    ∃ pre post, (create_session st app_name user_id state session_id now).1 =
      .error (pre ++ session_id ++ post) := by
  refine ⟨by simp [create_session, h], "Session with id '".toList,
    "' already exists for user ".toList ++ user_id ++ " in app ".toList ++ app_name ++ ".".toList,
    ?_⟩
  simp [create_session, h, conflictMsg, List.append_assoc]

/-- Witness for **C7** at a concrete input. -/
theorem C7_witness :
    hasSessionId exStore0 ['s'] = true ∧
    ((create_session exStore0 ['b'] ['v'] [] ['s'] 1).2 = exStore0 ∧
     ∃ pre post, (create_session exStore0 ['b'] ['v'] [] ['s'] 1).1 =
       .error (pre ++ ['s'] ++ post)) :=
  ⟨by decide, C7_create_conflict_aborts exStore0 ['b'] ['v'] [] ['s'] 1 (by decide)⟩

/-- **C1** (evaluating the code at the failing input): with an
after-timestamp filter `T = 2` on a session holding events at
timestamps 1 and 3, `get_session` returns exactly the event with
timestamp 1 — the query the code builds is `{"timestamp": {"$lt": T}}`,
strictly *before* `T` — while the claim (and the meaning of the
`after_timestamp` config field) requires exactly the events strictly
after `T`, i.e. the event with timestamp 3. -/
theorem C1_after_filter_keeps_earlier_events :
    ((get_session exStore13 ['a'] ['u'] ['s']
        (some { after_timestamp := some 2, num_recent_events := none })).map
      (fun s => s.events.map (·.timestamp))) = some [1] := by decide

/-- **C3**: for an existing session and a persistable event (content
present, not partial), `append_event` fails with the stale-write
Conflict error iff the stored record's update time is strictly greater
than the handle's `last_update_time` token; on that failure nothing is
written — event log, all state tiers and the handle are exactly as
before — and the function performs no retry (its result is final). -/
theorem C3_append_stale_iff {V : Type} (st : Store V) (session : SessionObj V)
    (event : EventObj V) (now : Int) (sdoc : SessionDoc V)
    (hfind : st.sessions.find? (fun d => d.sid == session.id && d.app_name == session.app_name &&
      d.user_id == session.user_id) = some sdoc)
    (hc : event.content.isSome = true) (hp : truthy event.partialFlag = false) :
    ((∃ t s, (append_event st session event now).1 = .error (.stale t s)) ↔
      sdoc.update_time > session.last_update_time) ∧
    (sdoc.update_time > session.last_update_time →
      append_event st session event now =
        (.error (.stale session.last_update_time sdoc.update_time), session, st)) := by
  have hcn : event.content.isNone = false := by
    cases h : event.content <;> simp_all
  by_cases hst : sdoc.update_time > session.last_update_time
  · refine ⟨⟨fun _ => hst, fun _ => ?_⟩, fun _ => ?_⟩
    · exact ⟨session.last_update_time, sdoc.update_time, by
        simp [append_event, hcn, hp, hfind, hst]⟩
    · simp [append_event, hcn, hp, hfind, hst]
  · refine ⟨⟨fun hex => ?_, fun h => absurd h hst⟩, fun h => absurd h hst⟩
    obtain ⟨t, s, hts⟩ := hex
    cases hdup : st.events.any (fun e => e.eid == event.eid) <;>
      simp [append_event, hcn, hp, hfind, hst, hdup] at hts

/-- Witness for **C3** at a concrete input (a handle with token 0
against a record whose stored update time is 7). -/
theorem C3_witness :
    ((∃ t s, (append_event exStore7 exSession exEvent 9).1 = .error (.stale t s)) ↔
      exSessionDoc7.update_time > exSession.last_update_time) ∧
    (exSessionDoc7.update_time > exSession.last_update_time →
      append_event exStore7 exSession exEvent 9 =
        (.error (.stale exSession.last_update_time exSessionDoc7.update_time), exSession,
          exStore7)) :=
  C3_append_stale_iff exStore7 exSession exEvent 9 exSessionDoc7 (by rfl) (by rfl) (by rfl)

/-- **C9**: a successful `append_event` whose event carries no state
delta in any tier leaves the stored session records (hence the record's
`update_time`) untouched while unconditionally advancing the handle's
`last_update_time` to the transaction time; the staleness comparison
for a subsequent append with that handle against the resulting store
comes out false (the stored time does not exceed the new token). -/
theorem C9_no_delta_token_advance {V : Type} (st : Store V) (session : SessionObj V)
    (event : EventObj V) (now : Int) (sdoc : SessionDoc V)
    (hfind : st.sessions.find? (fun d => d.sid == session.id && d.app_name == session.app_name &&
      d.user_id == session.user_id) = some sdoc)
    (hc : event.content.isSome = true) (hp : truthy event.partialFlag = false)
    (hst : ¬ sdoc.update_time > session.last_update_time)
    (hdelta : eventDeltas event = ([], [], []))
    (hdup : st.events.any (fun e => e.eid == event.eid) = false)
    (hmono : sdoc.update_time ≤ now) :
    (append_event st session event now).1 = .ok event ∧
    (append_event st session event now).2.2.sessions = st.sessions ∧
    (append_event st session event now).2.1.last_update_time = now ∧
    appendStaleCheck (append_event st session event now).2.2
      (append_event st session event now).2.1 = false := by
  have hcn : event.content.isNone = false := by
    cases h : event.content <;> simp_all
  have hres : append_event st session event now =
      (.ok event,
       { session with last_update_time := now, events := session.events ++ [event] },
       { st with events := st.events ++ [appendedDoc session event] }) := by
    simp [append_event, hcn, hp, hfind, hst, hdelta, hdup]
  rw [hres]
  refine ⟨rfl, rfl, rfl, ?_⟩
  show (match st.sessions.find? (fun d => d.sid == session.id && d.app_name == session.app_name &&
      d.user_id == session.user_id) with
    | some d => decide (d.update_time > now)
    | none => false) = false
  rw [hfind]
  simp
  omega

/-- Witness for **C9** at a concrete input. -/
theorem C9_witness :
    (append_event exStore0 exSession exEvent 9).1 = .ok exEvent ∧
    (append_event exStore0 exSession exEvent 9).2.2.sessions = exStore0.sessions ∧
    (append_event exStore0 exSession exEvent 9).2.1.last_update_time = 9 ∧
    appendStaleCheck (append_event exStore0 exSession exEvent 9).2.2
      (append_event exStore0 exSession exEvent 9).2.1 = false :=
  C9_no_delta_token_advance exStore0 exSession exEvent 9 exSessionDoc (by rfl) (by rfl)
    (by rfl) (by decide) (by rfl) (by rfl) (by decide)

theorem timestamp_event_doc_to_obj {V : Type} (d : EventDoc V) :
    (event_doc_to_obj d).timestamp = d.timestamp := rfl

/-- **C4**: with a positive most-recent-`N` config on an existing
session, `get_session` returns `min N M` events (where `M` counts the
session's stored events), ordered ascending by timestamp, and they are
the events with the largest timestamps: every event left out has a
timestamp at most that of every event returned — even though the store
retrieves them newest-first internally. -/
theorem C4_recent_cap {V : Type} (st : Store V) (app_name user_id session_id : Str)
    (N : Int) (hN : 0 < N) (sdoc : SessionDoc V)
    (hfind : st.sessions.find? (fun d => d.sid == session_id && d.app_name == app_name &&
      d.user_id == user_id) = some sdoc) :
    ∃ sobj, get_session st app_name user_id session_id
        (some { after_timestamp := none, num_recent_events := some N }) = some sobj ∧
      sobj.events.length = min N.toNat
        (st.events.filter (eventMatches app_name user_id session_id
          (some { after_timestamp := none, num_recent_events := some N }))).length ∧
      sobj.events.Pairwise (fun e1 e2 => e1.timestamp ≤ e2.timestamp) ∧
      ∃ others, (sobj.events ++ others).Perm
          ((st.events.filter (eventMatches app_name user_id session_id
            (some { after_timestamp := none, num_recent_events := some N }))).map
            event_doc_to_obj) ∧
        ∀ x ∈ others, ∀ y ∈ sobj.events, x.timestamp ≤ y.timestamp := by
  have hlim : eventLimit (some { after_timestamp := none, num_recent_events := some N }) =
      some N := by
    simp [eventLimit, hN]
  set m := st.events.filter (eventMatches app_name user_id session_id
    (some { after_timestamp := none, num_recent_events := some N })) with hm
  have hdocs : getSessionEventDocs st app_name user_id session_id
      (some { after_timestamp := none, num_recent_events := some N }) =
      ((sortDescTs m).take N.toNat).reverse := by
    unfold getSessionEventDocs
    rw [hlim, ← hm]
  set docs := ((sortDescTs m).take N.toNat).reverse with hdocsdef
  have hget : get_session st app_name user_id session_id
      (some { after_timestamp := none, num_recent_events := some N }) =
      some (session_doc_to_obj sdoc
        (merge_state (((dlookup st.app_states app_name).map (·.state)).getD [])
          (((dlookup st.user_states (app_name, user_id)).map (·.state)).getD []) sdoc.state)
        (some (docs.map event_doc_to_obj))) := by
    simp only [get_session, hfind, hdocs, hm]
  refine ⟨_, hget, ?_, ?_, ?_⟩
  · -- length
    simp only [session_doc_to_obj, Option.getD_some, List.length_map, hdocsdef,
      List.length_reverse, List.length_take]
    exact congrArg _ (List.perm_insertionSort tsGE m).length_eq
  · -- sorted ascending
    have hsorted : (sortDescTs m).Pairwise tsGE := List.sorted_insertionSort tsGE m
    have htake : ((sortDescTs m).take N.toNat).Pairwise tsGE :=
      hsorted.sublist (List.take_sublist _ _)
    have hdocsSorted : docs.Pairwise tsLE := by
      rw [hdocsdef, List.pairwise_reverse]
      exact htake.imp (fun h => h)
    simp only [session_doc_to_obj, Option.getD_some]
    rw [List.pairwise_map]
    exact hdocsSorted.imp (fun h => h)
  · -- exactly the events with the largest timestamps
    refine ⟨((sortDescTs m).drop N.toNat).map event_doc_to_obj, ?_, ?_⟩
    · simp only [session_doc_to_obj, Option.getD_some]
      rw [← List.map_append]
      refine List.Perm.map _ ?_
      have h1 : (docs ++ (sortDescTs m).drop N.toNat).Perm
          ((sortDescTs m).take N.toNat ++ (sortDescTs m).drop N.toNat) :=
        (List.reverse_perm _).append_right _
      have h2 : (sortDescTs m).take N.toNat ++ (sortDescTs m).drop N.toNat = sortDescTs m :=
        List.take_append_drop _ _
      have h3 : (sortDescTs m).Perm m := List.perm_insertionSort tsGE m
      exact h1.trans (by rw [h2]; exact h3)
    · intro x hx y hy
      simp only [session_doc_to_obj, Option.getD_some, List.mem_map] at hx hy
      obtain ⟨xd, hxd, rfl⟩ := hx
      obtain ⟨yd, hyd, rfl⟩ := hy
      have hyd2 : yd ∈ (sortDescTs m).take N.toNat := by
        rw [hdocsdef, List.mem_reverse] at hyd
        exact hyd
      have hsorted : (sortDescTs m).Pairwise tsGE := List.sorted_insertionSort tsGE m
      have hsplit := (List.pairwise_append.mp
        (by rw [List.take_append_drop N.toNat (sortDescTs m)]; exact hsorted)).2.2
      exact hsplit yd hyd2 xd hxd

/-- Witness for **C4** at a concrete input: three stored events with
timestamps 2, 3, 1 (in that insertion order), cap `N = 2`. -/
theorem C4_witness :
    (0 : Int) < 2 ∧
    ∃ sobj, get_session exStore231 ['a'] ['u'] ['s']
        (some { after_timestamp := none, num_recent_events := some 2 }) = some sobj ∧
      sobj.events.length = min (2 : Int).toNat
        (exStore231.events.filter (eventMatches ['a'] ['u'] ['s']
          (some { after_timestamp := none, num_recent_events := some 2 }))).length ∧
      sobj.events.Pairwise (fun e1 e2 => e1.timestamp ≤ e2.timestamp) ∧
      ∃ others, (sobj.events ++ others).Perm
          ((exStore231.events.filter (eventMatches ['a'] ['u'] ['s']
            (some { after_timestamp := none, num_recent_events := some 2 }))).map
            event_doc_to_obj) ∧
        ∀ x ∈ others, ∀ y ∈ sobj.events, x.timestamp ≤ y.timestamp :=
  ⟨by decide,
    C4_recent_cap exStore231 ['a'] ['u'] ['s'] 2 (by decide) exSessionDoc (by rfl)⟩

theorem dlookup_dset_self {K V : Type} [DecidableEq K] (m : AList K V) (k : K) (v : V) :
    dlookup (dset m k v) k = some v := by
  induction m with
  | nil => simp [dset, dlookup]
  | cons kv rest ih =>
    obtain ⟨k0, v0⟩ := kv
    by_cases h : k0 = k <;> simp [dset, dlookup, h, ih]

theorem dlookup_dset_ne {K V : Type} [DecidableEq K] (m : AList K V) (k k' : K) (v : V)
    (h : k' ≠ k) : dlookup (dset m k v) k' = dlookup m k' := by
  induction m with
  | nil => simp [dset, dlookup, Ne.symm h]
  | cons kv rest ih =>
    obtain ⟨k0, v0⟩ := kv
    by_cases h0 : k0 = k
    · subst h0
      simp [dset, dlookup, Ne.symm h]
    · simp [dset, dlookup, h0, ih]

theorem dlookup_eq_none_of_not_mem {K V : Type} [DecidableEq K] (m : AList K V) (k : K)
    (h : k ∉ m.map Prod.fst) : dlookup m k = none := by
  induction m with
  | nil => rfl
  | cons kv rest ih =>
    simp only [List.map_cons, List.mem_cons, not_or] at h
    obtain ⟨k0, v0⟩ := kv
    simp only [dlookup]
    rw [if_neg (by simpa using Ne.symm h.1)]
    exact ih h.2

theorem isPrefixOf_append_self (p t : Str) : p.isPrefixOf (p ++ t) = true := by
  induction p with
  | nil => simp [List.isPrefixOf]
  | cons a as ih => simp [List.isPrefixOf, ih]

theorem removePfx_append (p t : Str) : removePfx p (p ++ t) = t := by
  simp [removePfx, isPrefixOf_append_self, List.drop_left]

theorem append_removePfx {p k : Str} (h : p.isPrefixOf k = true) :
    p ++ removePfx p k = k := by
  obtain ⟨t, rfl⟩ := List.isPrefixOf_iff_prefix.mp h
  rw [removePfx_append]

theorem isPrefixOf_head_ne (a b : Char) (hne : a ≠ b) (as bs : Str) :
    (a :: as).isPrefixOf (b :: bs) = false := by
  simp [List.isPrefixOf, hne]

theorem ne_append_of_not_isPrefixOf {p k : Str} (h : p.isPrefixOf k = false) (t : Str) :
    k ≠ p ++ t := by
  intro hk
  rw [hk, isPrefixOf_append_self] at h
  simp at h

theorem app_not_pfx_user (t : Str) : APP_PFX.isPrefixOf (USER_PFX ++ t) = false :=
  isPrefixOf_head_ne 'a' 'u' (by decide) _ _

theorem app_not_pfx_temp (t : Str) : APP_PFX.isPrefixOf (TEMP_PFX ++ t) = false :=
  isPrefixOf_head_ne 'a' 't' (by decide) _ _

theorem user_not_pfx_app (t : Str) : USER_PFX.isPrefixOf (APP_PFX ++ t) = false :=
  isPrefixOf_head_ne 'u' 'a' (by decide) _ _

theorem user_not_pfx_temp (t : Str) : USER_PFX.isPrefixOf (TEMP_PFX ++ t) = false :=
  isPrefixOf_head_ne 'u' 't' (by decide) _ _

theorem temp_not_pfx_app (t : Str) : TEMP_PFX.isPrefixOf (APP_PFX ++ t) = false :=
  isPrefixOf_head_ne 't' 'a' (by decide) _ _

theorem temp_not_pfx_user (t : Str) : TEMP_PFX.isPrefixOf (USER_PFX ++ t) = false :=
  isPrefixOf_head_ne 't' 'u' (by decide) _ _

/-- Looking up `k` in the app tier of the split equals looking up
`app: + k` in the combined map. -/
theorem dlookup_extract_app {V : Type} (s : StateMap V) (k : Str) :
    dlookup (extract_state_delta s).1 k = dlookup s (APP_PFX ++ k) := by
  induction s with
  | nil => rfl
  | cons kv rest ih =>
    obtain ⟨k0, v0⟩ := kv
    by_cases happ : APP_PFX.isPrefixOf k0
    · have hk0 : APP_PFX ++ removePfx APP_PFX k0 = k0 := append_removePfx happ
      by_cases hk : removePfx APP_PFX k0 = k
      · have hk0' : k0 = APP_PFX ++ k := by rw [← hk0, hk]
        simp [extract_state_delta, happ, dlookup, hk, hk0', removePfx_append]
      · have hk0' : k0 ≠ APP_PFX ++ k := by
          intro he
          apply hk
          have := congrArg (removePfx APP_PFX) he
          rwa [removePfx_append] at this
        simp [extract_state_delta, happ, dlookup, hk, hk0', ih]
    · have hk0' : k0 ≠ APP_PFX ++ k :=
        ne_append_of_not_isPrefixOf (Bool.eq_false_iff.mpr happ) k
      by_cases huser : USER_PFX.isPrefixOf k0 <;>
        by_cases htemp : TEMP_PFX.isPrefixOf k0 <;>
          simp [extract_state_delta, happ, huser, htemp, dlookup, hk0', ih]

/-- Looking up `k` in the user tier of the split equals looking up
`user: + k` in the combined map. -/
theorem dlookup_extract_user {V : Type} (s : StateMap V) (k : Str) :
    dlookup (extract_state_delta s).2.1 k = dlookup s (USER_PFX ++ k) := by
  induction s with
  | nil => rfl
  | cons kv rest ih =>
    obtain ⟨k0, v0⟩ := kv
    by_cases happ : APP_PFX.isPrefixOf k0
    · have hk0 : APP_PFX ++ removePfx APP_PFX k0 = k0 := append_removePfx happ
      have hk0' : k0 ≠ USER_PFX ++ k := by
        intro he
        have := user_not_pfx_app (removePfx APP_PFX k0)
        rw [hk0, he, isPrefixOf_append_self] at this
        simp at this
      simp [extract_state_delta, happ, dlookup, hk0', ih]
    · by_cases huser : USER_PFX.isPrefixOf k0
      · have hk0 : USER_PFX ++ removePfx USER_PFX k0 = k0 := append_removePfx huser
        by_cases hk : removePfx USER_PFX k0 = k
        · have hk0' : k0 = USER_PFX ++ k := by rw [← hk0, hk]
          simp [extract_state_delta, happ, huser, dlookup, hk, hk0', removePfx_append]
        · have hk0' : k0 ≠ USER_PFX ++ k := by
            intro he
            apply hk
            have := congrArg (removePfx USER_PFX) he
            rwa [removePfx_append] at this
          simp [extract_state_delta, happ, huser, dlookup, hk, hk0', ih]
      · have hk0' : k0 ≠ USER_PFX ++ k :=
          ne_append_of_not_isPrefixOf (Bool.eq_false_iff.mpr huser) k
        by_cases htemp : TEMP_PFX.isPrefixOf k0 <;>
          simp [extract_state_delta, happ, huser, htemp, dlookup, hk0', ih]

/-- On a key carrying no tier prefix, the session tier of the split
agrees with the combined map. -/
theorem dlookup_extract_session_free {V : Type} (s : StateMap V) (k : Str)
    (ha : APP_PFX.isPrefixOf k = false) (hu : USER_PFX.isPrefixOf k = false)
    (ht : TEMP_PFX.isPrefixOf k = false) :
    dlookup (extract_state_delta s).2.2 k = dlookup s k := by
  induction s with
  | nil => rfl
  | cons kv rest ih =>
    obtain ⟨k0, v0⟩ := kv
    by_cases happ : APP_PFX.isPrefixOf k0
    · have hk0 : APP_PFX ++ removePfx APP_PFX k0 = k0 := append_removePfx happ
      have hk0' : k0 ≠ k := by
        intro he
        rw [← he, ← hk0, isPrefixOf_append_self] at ha
        simp at ha
      simp [extract_state_delta, happ, dlookup, hk0', ih]
    · by_cases huser : USER_PFX.isPrefixOf k0
      · have hk0 : USER_PFX ++ removePfx USER_PFX k0 = k0 := append_removePfx huser
        have hk0' : k0 ≠ k := by
          intro he
          rw [← he, ← hk0, isPrefixOf_append_self] at hu
          simp at hu
        simp [extract_state_delta, happ, huser, dlookup, hk0', ih]
      · by_cases htemp : TEMP_PFX.isPrefixOf k0
        · have hk0 : TEMP_PFX ++ removePfx TEMP_PFX k0 = k0 := append_removePfx htemp
          have hk0' : k0 ≠ k := by
            intro he
            rw [← he, ← hk0, isPrefixOf_append_self] at ht
            simp at ht
          simp [extract_state_delta, happ, huser, htemp, dlookup, hk0', ih]
        · simp [extract_state_delta, happ, huser, htemp, dlookup, ih]

/-- On a key carrying a tier prefix, the session tier of the split has
no binding. -/
theorem dlookup_extract_session_pfx {V : Type} (s : StateMap V) (k : Str)
    (h : APP_PFX.isPrefixOf k = true ∨ USER_PFX.isPrefixOf k = true ∨
      TEMP_PFX.isPrefixOf k = true) :
    dlookup (extract_state_delta s).2.2 k = none := by
  induction s with
  | nil => rfl
  | cons kv rest ih =>
    obtain ⟨k0, v0⟩ := kv
    by_cases happ : APP_PFX.isPrefixOf k0
    · simp [extract_state_delta, happ, ih]
    · by_cases huser : USER_PFX.isPrefixOf k0
      · simp [extract_state_delta, happ, huser, ih]
      · by_cases htemp : TEMP_PFX.isPrefixOf k0
        · simp [extract_state_delta, happ, huser, htemp, ih]
        · have hk0' : k0 ≠ k := by
            intro he
            subst he
            rcases h with h | h | h
            · rw [h] at happ; exact happ rfl
            · rw [h] at huser; exact huser rfl
            · rw [h] at htemp; exact htemp rfl
          simp [extract_state_delta, happ, huser, htemp, dlookup, hk0', ih]

theorem mem_keys_extract_app {V : Type} (s : StateMap V) (k : Str)
    (h : k ∈ (extract_state_delta s).1.map Prod.fst) : APP_PFX ++ k ∈ s.map Prod.fst := by
  induction s with
  | nil => simp [extract_state_delta] at h
  | cons kv rest ih =>
    obtain ⟨k0, v0⟩ := kv
    by_cases happ : APP_PFX.isPrefixOf k0
    · simp only [extract_state_delta, happ, if_true, List.map_cons, List.mem_cons] at h
      rcases h with h | h
      · rw [List.map_cons, h, append_removePfx happ]
        exact List.mem_cons_self _ _
      · rw [List.map_cons]
        exact List.mem_cons_of_mem _ (ih h)
    · by_cases huser : USER_PFX.isPrefixOf k0 <;> by_cases htemp : TEMP_PFX.isPrefixOf k0 <;>
        simp only [extract_state_delta, happ, huser, htemp, if_true, if_false,
          Bool.false_eq_true, List.map_cons, List.mem_cons] at h <;>
        (rw [List.map_cons]; exact List.mem_cons_of_mem _ (ih h))

theorem mem_keys_extract_user {V : Type} (s : StateMap V) (k : Str)
    (h : k ∈ (extract_state_delta s).2.1.map Prod.fst) : USER_PFX ++ k ∈ s.map Prod.fst := by
  induction s with
  | nil => simp [extract_state_delta] at h
  | cons kv rest ih =>
    obtain ⟨k0, v0⟩ := kv
    by_cases happ : APP_PFX.isPrefixOf k0
    · simp only [extract_state_delta, happ, if_true, List.map_cons, List.mem_cons] at h
      rw [List.map_cons]
      exact List.mem_cons_of_mem _ (ih h)
    · by_cases huser : USER_PFX.isPrefixOf k0
      · simp only [extract_state_delta, happ, huser, if_true, if_false, Bool.false_eq_true,
          List.map_cons, List.mem_cons] at h
        rcases h with h | h
        · rw [List.map_cons, h, append_removePfx huser]
          exact List.mem_cons_self _ _
        · rw [List.map_cons]
          exact List.mem_cons_of_mem _ (ih h)
      · by_cases htemp : TEMP_PFX.isPrefixOf k0 <;>
          simp only [extract_state_delta, happ, huser, htemp, if_true, if_false,
            Bool.false_eq_true, List.map_cons, List.mem_cons] at h <;>
          (rw [List.map_cons]; exact List.mem_cons_of_mem _ (ih h))

theorem nodup_keys_extract_app {V : Type} (s : StateMap V)
    (hnd : (s.map Prod.fst).Nodup) : ((extract_state_delta s).1.map Prod.fst).Nodup := by
  induction s with
  | nil => simp [extract_state_delta]
  | cons kv rest ih =>
    obtain ⟨k0, v0⟩ := kv
    simp only [List.map_cons, List.nodup_cons] at hnd
    by_cases happ : APP_PFX.isPrefixOf k0
    · simp only [extract_state_delta, happ, if_true, List.map_cons, List.nodup_cons]
      refine ⟨fun hmem => ?_, ih hnd.2⟩
      have := mem_keys_extract_app rest _ hmem
      rw [append_removePfx happ] at this
      exact hnd.1 this
    · by_cases huser : USER_PFX.isPrefixOf k0 <;> by_cases htemp : TEMP_PFX.isPrefixOf k0 <;>
        simp only [extract_state_delta, happ, huser, htemp, if_true, if_false,
          Bool.false_eq_true, List.map_cons, List.nodup_cons] <;>
        exact ih hnd.2

theorem nodup_keys_extract_user {V : Type} (s : StateMap V)
    (hnd : (s.map Prod.fst).Nodup) : ((extract_state_delta s).2.1.map Prod.fst).Nodup := by
  induction s with
  | nil => simp [extract_state_delta]
  | cons kv rest ih =>
    obtain ⟨k0, v0⟩ := kv
    simp only [List.map_cons, List.nodup_cons] at hnd
    by_cases happ : APP_PFX.isPrefixOf k0
    · simp only [extract_state_delta, happ, if_true]
      exact ih hnd.2
    · by_cases huser : USER_PFX.isPrefixOf k0
      · simp only [extract_state_delta, happ, huser, if_true, if_false, Bool.false_eq_true,
          List.map_cons, List.nodup_cons]
        refine ⟨fun hmem => ?_, ih hnd.2⟩
        have := mem_keys_extract_user rest _ hmem
        rw [append_removePfx huser] at this
        exact hnd.1 this
      · by_cases htemp : TEMP_PFX.isPrefixOf k0 <;>
          simp only [extract_state_delta, happ, huser, htemp, if_true, if_false,
            Bool.false_eq_true, List.map_cons, List.nodup_cons] <;>
          exact ih hnd.2

/-- A fold of prefixed assignments cannot touch a key the prefix does
not start. -/
theorem dlookup_foldPfx_nopfx {V : Type} (p : Str) (lst m : StateMap V) (k : Str)
    (hk : p.isPrefixOf k = false) :
    dlookup (lst.foldl (fun acc kv => dset acc (p ++ kv.1) kv.2) m) k = dlookup m k := by
  induction lst generalizing m with
  | nil => rfl
  | cons kv rest ih =>
    simp only [List.foldl_cons]
    rw [ih, dlookup_dset_ne _ _ _ _ (ne_append_of_not_isPrefixOf hk kv.1)]

/-- A fold of prefixed assignments leaves `p ++ t` alone when `t` is not
a key of the assigned map. -/
theorem dlookup_foldPfx_none {V : Type} (p : Str) (lst : StateMap V) (m : StateMap V) (t : Str)
    (h : dlookup lst t = none) :
    dlookup (lst.foldl (fun acc kv => dset acc (p ++ kv.1) kv.2) m) (p ++ t) =
      dlookup m (p ++ t) := by
  induction lst generalizing m with
  | nil => rfl
  | cons kv rest ih =>
    obtain ⟨t0, v0⟩ := kv
    simp only [dlookup] at h
    by_cases ht : t0 = t
    · simp [ht] at h
    · rw [if_neg ht] at h
      simp only [List.foldl_cons]
      rw [ih _ h, dlookup_dset_ne]
      intro he
      exact ht (List.append_cancel_left he).symm

/-- A fold of prefixed assignments writes `p ++ t` with the map's value
at `t`. -/
theorem dlookup_foldPfx_some {V : Type} (p : Str) (lst : StateMap V) (m : StateMap V)
    (t : Str) (v : V) (hnd : (lst.map Prod.fst).Nodup) (h : dlookup lst t = some v) :
    dlookup (lst.foldl (fun acc kv => dset acc (p ++ kv.1) kv.2) m) (p ++ t) = some v := by
  induction lst generalizing m with
  | nil => simp [dlookup] at h
  | cons kv rest ih =>
    obtain ⟨t0, v0⟩ := kv
    simp only [List.map_cons, List.nodup_cons] at hnd
    simp only [dlookup] at h
    by_cases ht : t0 = t
    · rw [if_pos ht] at h
      obtain rfl := Option.some.inj h
      subst ht
      have hrest : dlookup rest t0 = none := dlookup_eq_none_of_not_mem _ _ hnd.1
      simp only [List.foldl_cons]
      rw [dlookup_foldPfx_none p rest _ t0 hrest, dlookup_dset_self]
    · rw [if_neg ht] at h
      simp only [List.foldl_cons]
      exact ih _ hnd.2 h

/-- Merging the three maps produced by splitting `s` restores, key for
key, exactly `s` minus its `temp:`-prefixed keys. -/
theorem dlookup_merge_extract {V : Type} (s : StateMap V)
    (hnd : (s.map Prod.fst).Nodup) (k : Str) :
    dlookup (merge_state (extract_state_delta s).1 (extract_state_delta s).2.1
      (extract_state_delta s).2.2) k =
    if TEMP_PFX.isPrefixOf k then none else dlookup s k := by
  unfold merge_state
  by_cases huk : USER_PFX.isPrefixOf k
  · obtain ⟨t, rfl⟩ := List.isPrefixOf_iff_prefix.mp huk
    rw [if_neg (by simp [temp_not_pfx_user t])]
    cases hlu : dlookup (extract_state_delta s).2.1 t with
    | some v =>
      rw [dlookup_foldPfx_some USER_PFX _ _ t v (nodup_keys_extract_user s hnd) hlu]
      rw [dlookup_extract_user] at hlu
      exact hlu.symm
    | none =>
      rw [dlookup_foldPfx_none USER_PFX _ _ t hlu]
      rw [dlookup_foldPfx_nopfx APP_PFX _ _ _ (app_not_pfx_user t)]
      rw [dlookup_extract_session_pfx s _
        (Or.inr (Or.inl (isPrefixOf_append_self USER_PFX t)))]
      rw [dlookup_extract_user] at hlu
      exact hlu.symm
  · rw [dlookup_foldPfx_nopfx USER_PFX _ _ _ (Bool.eq_false_iff.mpr huk)]
    by_cases hak : APP_PFX.isPrefixOf k
    · obtain ⟨t, rfl⟩ := List.isPrefixOf_iff_prefix.mp hak
      rw [if_neg (by simp [temp_not_pfx_app t])]
      cases hla : dlookup (extract_state_delta s).1 t with
      | some v =>
        rw [dlookup_foldPfx_some APP_PFX _ _ t v (nodup_keys_extract_app s hnd) hla]
        rw [dlookup_extract_app] at hla
        exact hla.symm
      | none =>
        rw [dlookup_foldPfx_none APP_PFX _ _ t hla]
        rw [dlookup_extract_session_pfx s _
          (Or.inl (isPrefixOf_append_self APP_PFX t))]
        rw [dlookup_extract_app] at hla
        exact hla.symm
    · rw [dlookup_foldPfx_nopfx APP_PFX _ _ _ (Bool.eq_false_iff.mpr hak)]
      by_cases htk : TEMP_PFX.isPrefixOf k
      · rw [if_pos htk]
        exact dlookup_extract_session_pfx s _ (Or.inr (Or.inr htk))
      · rw [if_neg htk]
        exact dlookup_extract_session_free s _ (Bool.eq_false_iff.mpr hak)
          (Bool.eq_false_iff.mpr huk) (Bool.eq_false_iff.mpr htk)

theorem dset_absent {K V : Type} [DecidableEq K] (m : AList K V) (k : K) (v : V)
    (h : dlookup m k = none) : dset m k v = m ++ [(k, v)] := by
  induction m with
  | nil => rfl
  | cons kv rest ih =>
    obtain ⟨k0, v0⟩ := kv
    simp only [dlookup] at h
    by_cases hk : k0 = k
    · simp [hk] at h
    · rw [if_neg hk] at h
      simp [dset, hk, ih h]

theorem dlookup_append_left_none {K V : Type} [DecidableEq K] (l1 l2 : AList K V) (k : K)
    (h : dlookup l1 k = none) : dlookup (l1 ++ l2) k = dlookup l2 k := by
  induction l1 with
  | nil => rfl
  | cons kv rest ih =>
    obtain ⟨k0, v0⟩ := kv
    simp only [dlookup] at h
    by_cases hk : k0 = k
    · simp [hk] at h
    · rw [if_neg hk] at h
      simp only [List.cons_append, dlookup, if_neg hk]
      exact ih h

theorem dictUpdate_append_absent {K V : Type} [DecidableEq K] (m delta : AList K V)
    (habs : ∀ k ∈ delta.map Prod.fst, dlookup m k = none)
    (hnd : (delta.map Prod.fst).Nodup) : dictUpdate m delta = m ++ delta := by
  induction delta generalizing m with
  | nil => simp [dictUpdate]
  | cons kv rest ih =>
    obtain ⟨k, v⟩ := kv
    simp only [List.map_cons, List.nodup_cons] at hnd
    have hm : dlookup m k = none := habs k (by simp)
    have hstep : dictUpdate m ((k, v) :: rest) = dictUpdate (m ++ [(k, v)]) rest := by
      simp only [dictUpdate, List.foldl_cons]
      rw [dset_absent m k v hm]
    rw [hstep, ih (m ++ [(k, v)]) ?_ hnd.2]
    · simp
    · intro k' hk'
      have hne : k ≠ k' := fun he => hnd.1 (he ▸ hk')
      rw [dlookup_append_left_none _ _ _ (habs k' (by simp [hk']))]
      simp [dlookup, hne]

theorem dictUpdate_nil {V : Type} (l : StateMap V) (hnd : (l.map Prod.fst).Nodup) :
    dictUpdate ([] : StateMap V) l = l := by
  rw [dictUpdate_append_absent ([] : StateMap V) l (fun k _ => rfl) hnd, List.nil_append]

/-- `get_session` when the session record is found. -/
theorem get_session_eq_of_find {V : Type} (st : Store V) (app_name user_id session_id : Str)
    (config : Option GetSessionConfig) (sdoc : SessionDoc V)
    (hfind : st.sessions.find? (fun d => d.sid == session_id && d.app_name == app_name &&
      d.user_id == user_id) = some sdoc) :
    get_session st app_name user_id session_id config = some (session_doc_to_obj sdoc
      (merge_state (((dlookup st.app_states app_name).map (·.state)).getD [])
        (((dlookup st.user_states (app_name, user_id)).map (·.state)).getD []) sdoc.state)
      (some ((getSessionEventDocs st app_name user_id session_id config).map
        event_doc_to_obj))) := by
  simp only [get_session, hfind]

/-- **C5**: splitting a flat state map into the three tiers and merging
them back yields exactly the original map minus its `temp:`-prefixed
keys — no other key added, removed or changed; consequently
`get_session` right after `create_session`, on previously unwritten
application and user tiers and a fresh session id, returns a merged
state equal (key for key) to the initial state minus `temp:`-prefixed
keys. -/
theorem C5_split_merge_roundtrip {V : Type} (state : StateMap V)
    (hnd : (state.map Prod.fst).Nodup)
    (st : Store V) (app_name user_id session_id : Str) (now : Int)
    (happ0 : dlookup st.app_states app_name = none)
    (huser0 : dlookup st.user_states (app_name, user_id) = none)
    (hsid : hasSessionId st session_id = false) :
    (∀ k, dlookup (merge_state (extract_state_delta state).1 (extract_state_delta state).2.1
        (extract_state_delta state).2.2) k =
      if TEMP_PFX.isPrefixOf k then none else dlookup state k) ∧
    ∃ sobj st2, create_session st app_name user_id state session_id now = (.ok sobj, st2) ∧
      ∃ sobj2, get_session st2 app_name user_id session_id none = some sobj2 ∧
        ∀ k, dlookup sobj2.state k =
          if TEMP_PFX.isPrefixOf k then none else dlookup state k := by
  refine ⟨fun k => dlookup_merge_extract state hnd k, ?_⟩
  have ha2 : dictUpdate ([] : StateMap V) (extract_state_delta state).1 =
      (extract_state_delta state).1 :=
    dictUpdate_nil _ (nodup_keys_extract_app state hnd)
  have hu2 : dictUpdate ([] : StateMap V) (extract_state_delta state).2.1 =
      (extract_state_delta state).2.1 :=
    dictUpdate_nil _ (nodup_keys_extract_user state hnd)
  have hany : (st.sessions.any fun d => d.sid == session_id) = false := hsid
  have hanyfalse : ∀ d ∈ st.sessions, (d.sid == session_id) = false := by
    intro d hd
    by_contra hb
    rw [Bool.not_eq_false] at hb
    have : (st.sessions.any fun d => d.sid == session_id) = true :=
      List.any_eq_true.mpr ⟨d, hd, hb⟩
    rw [hany] at this
    exact Bool.false_ne_true this
  refine ⟨session_doc_to_obj ⟨session_id, app_name, user_id, (extract_state_delta state).2.2,
      now, now⟩
      (merge_state (dictUpdate [] (extract_state_delta state).1)
        (dictUpdate [] (extract_state_delta state).2.1) (extract_state_delta state).2.2) none,
    { app_states := dset st.app_states app_name
        ⟨dictUpdate [] (extract_state_delta state).1, now⟩,
      user_states := dset st.user_states (app_name, user_id)
        ⟨dictUpdate [] (extract_state_delta state).2.1, now⟩,
      sessions := st.sessions ++ [⟨session_id, app_name, user_id,
        (extract_state_delta state).2.2, now, now⟩],
      events := st.events }, ?_, ?_⟩
  · simp [create_session, hsid, happ0, huser0]
  · have hprednone : st.sessions.find? (fun d => d.sid == session_id &&
        d.app_name == app_name && d.user_id == user_id) = none := by
      rw [List.find?_eq_none]
      intro d hd
      simp [hanyfalse d hd]
    have hfind2 : (st.sessions ++ [(⟨session_id, app_name, user_id,
        (extract_state_delta state).2.2, now, now⟩ : SessionDoc V)]).find?
        (fun d => d.sid == session_id && d.app_name == app_name && d.user_id == user_id) =
        some ⟨session_id, app_name, user_id, (extract_state_delta state).2.2, now, now⟩ := by
      rw [List.find?_append, hprednone]
      simp
    refine ⟨_, get_session_eq_of_find _ _ _ _ _ _ hfind2, ?_⟩
    intro k
    simp only [session_doc_to_obj, dlookup_dset_self]
    rw [show ((some (⟨dictUpdate [] (extract_state_delta state).1, now⟩ : StateDoc V)).map
      (·.state)).getD [] = dictUpdate [] (extract_state_delta state).1 from rfl]
    rw [show ((some (⟨dictUpdate [] (extract_state_delta state).2.1, now⟩ : StateDoc V)).map
      (·.state)).getD [] = dictUpdate [] (extract_state_delta state).2.1 from rfl]
    rw [ha2, hu2]
    exact dlookup_merge_extract state hnd k

/-- Witness for **C5** at a concrete input. -/
theorem C5_witness :
    (exState.map Prod.fst).Nodup ∧
    ((∀ k, dlookup (merge_state (extract_state_delta exState).1 (extract_state_delta exState).2.1
        (extract_state_delta exState).2.2) k =
      if TEMP_PFX.isPrefixOf k then none else dlookup exState k) ∧
    ∃ sobj st2, create_session exStoreEmpty ['a'] ['u'] exState ['s'] 3 = (.ok sobj, st2) ∧
      ∃ sobj2, get_session st2 ['a'] ['u'] ['s'] none = some sobj2 ∧
        ∀ k, dlookup sobj2.state k =
          if TEMP_PFX.isPrefixOf k then none else dlookup exState k) :=
  ⟨by decide,
    C5_split_merge_roundtrip exState (by decide) exStoreEmpty ['a'] ['u'] ['s'] 3 rfl rfl rfl⟩

theorem decode_content_encode_content (c : Content) (h : c.binaryOnly = true) :
    decode_content (encode_content c) = c := by
  obtain ⟨role, parts⟩ := c
  cases parts with
  | none => rfl
  | some ps =>
    simp only [Content.binaryOnly] at h
    have hall : ∀ p ∈ ps, ContentPart.binaryOnly p = true := by
      intro p hp
      exact List.all_eq_true.mp h p hp
    simp only [encode_content, decode_content, Option.map_some', Content.mk.injEq,
      Option.some.injEq, List.map_map, true_and]
    have hcongr : ∀ p ∈ ps, (decodePart ∘ encodePart) p = p := fun p hp =>
      decodePart_encodePart p (hall p hp)
    rw [List.map_congr_left hcongr]
    simp

/-- **C6** (evaluating the code at the failing input): append an event
whose inline data is the genuine bytes `[0, 255, 10, 77]`, then read it
back through `list_events`.  The pure codec pair does invert
(`decode_content_encode_content` above), but `_encode_content` tags the
base64 text with a Python 1-tuple, pymongo writes that tuple as a BSON
array, and every read returns it as a list — so `_decode_content`'s
`isinstance(..., tuple)` check never fires on read-back data and the
returned content still carries the base64 text in a list, not the
original bytes. -/
theorem C6_readback_keeps_encoded_list :
    (list_events (append_event exStore0 exSession exEvent 9).2.2 ['a'] ['u'] ['s']).map
        (fun e => e.content) =
      [some { role := some ['u'],
              parts := some [{ text := none,
                               inline_data := some { mime_type := some ['p', 'n', 'g'],
                                                     data := some (.lst1
                                                       (b64encode [0, 255, 10, 77])) } }] }] ∧
    ∀ e ∈ list_events (append_event exStore0 exSession exEvent 9).2.2 ['a'] ['u'] ['s'],
      e.content ≠ exEvent.content := by decide

end TaxAgent
